import Mathlib

/-!
Verification of the datagram transmission subsystem in `src/apps/src/sendto.rs`.

The Rust file provides:
  * `detect_gso(socket, segment_size)` — capability probe for UDP generic
    segmentation offload (`setsockopt(UdpGsoSegment, ...)` on Linux; constant
    `false` elsewhere);
  * `detect_sendmmsg()` — `cfg!` test for linux/android/freebsd/netbsd;
  * `send_to_gso(socket, buf, target, segment_size)` — single `sendmsg` with a
    GSO control message on Linux, `panic!` on other platforms;
  * `send_to_sendmmsg(socket, buf, target, segment_size)` — splits `buf` into
    `min(left, segment_size)` chunks and submits them in one `sendmmsg` on the
    four supported platforms, `panic!` elsewhere;
  * `send_to(socket, buf, target, segment_size, enable_gso, enable_sendmmsg)` —
    the dispatcher: GSO path if `enable_gso`, else sendmmsg path if
    `enable_sendmmsg`, else a per-segment `socket.send_to` loop.

Embedding choices:
  * The socket, the destination address and the kernel are abstracted into an
    `Env` of deterministic oracles, one per OS primitive the file calls.
    The socket and target arguments of the Rust functions are captured inside
    these oracles and therefore do not appear as separate parameters.
  * The `cfg!`/`#[cfg]` conditional compilation is modelled by an explicit
    `OS` parameter: each Rust function has one compiled body per platform
    family, and the Lean definition selects the corresponding body.
  * `panic!` is modelled by the distinct result constructor `SendResult.fatal`,
    separate from the ordinary `io::Result` error channel.
  * The two `while left > 0` loops do not terminate when `segment_size == 0`
    and the buffer is non-empty (`pkt_len = min(left, 0) = 0` never decreases
    `left`), so they are embedded with explicit fuel; `none` means the fuel ran
    out, i.e. the loop was still running after `fuel` iterations.
  * Every underlying transmission call performed on the data path is recorded
    in an `Op` trace so that call-count and call-order properties are statable.
-/

namespace Sendto

/-- Error value produced by the `nix` crate (`e.as_errno()` is `Some v` or
`None`), before translation to `io::Error`. -/
inductive NixErr where
  | errno (n : Nat)
  | other
deriving DecidableEq

/-- Error value of Rust's `io::Error` as far as this file distinguishes them:
either built from an errno (`io::Error::from(v)`) or an `Other`-kind wrapper. -/
inductive IoErr where
  | fromErrno (n : Nat)
  | otherKind
deriving DecidableEq

/-- The error translation performed at both `match e.as_errno()` sites:
`Some v => io::Error::from(v)`, `None => io::Error::new(ErrorKind::Other, e)`. -/
def translateNix : NixErr → IoErr
  | .errno n => .fromErrno n
  | .other => .otherKind

/-- Result of one call into the subsystem: an `Ok(bytes)` count, an
`Err(io::Error)`, or a `panic!` (process-fatal, not a value of `io::Result`). -/
inductive SendResult where
  | ok (n : Nat)
  | err (e : IoErr)
  | fatal (msg : String)
deriving DecidableEq

/-- One underlying transmission operation performed on the data path:
a `sendmsg` with GSO control data, a `sendmmsg` with a message vector, or a
plain `socket.send_to` of one segment. -/
inductive Op where
  | sendmsgGso (buf : List Nat) (segSize : Nat)
  | sendmmsg (msgs : List (List Nat))
  | sendOne (seg : List Nat)
deriving DecidableEq

/-- The three sender strategies of the dispatcher. -/
inductive Strat where
  | offload
  | batch
  | naive
deriving DecidableEq

/-- Which strategy an underlying operation belongs to. -/
def Op.strat : Op → Strat
  | .sendmsgGso _ _ => .offload
  | .sendmmsg _ => .batch
  | .sendOne _ => .naive

/-- Platform families distinguished by the `#[cfg]` attributes in the file. -/
inductive OS where
  | linux
  | android
  | freebsd
  | netbsd
  | macos
  | windows
deriving DecidableEq

/-- Deterministic oracles for the OS primitives the file calls.  The socket
and the destination address are captured inside the oracles. -/
structure Env where
  /-- `setsockopt(fd, UdpGsoSegment, segment_size as i32).is_ok()`. -/
  setsockoptGsoOk : Nat → Bool
  /-- `sendmsg(fd, [IoVec(buf)], [UdpGsoSegments(segment_size)], ..., dst)`. -/
  sendmsgGso : List Nat → Nat → Except NixErr Nat
  /-- `sendmmsg(fd, msgs, ...)`: per-message byte counts on success (the
  platform may confirm only some of the submitted messages). -/
  sendmmsg : List (List Nat) → Except NixErr (List Nat)
  /-- `socket.send_to(segment, target)`: an `io::Result<usize>` directly. -/
  sendOne : List Nat → Except IoErr Nat

/-- Byte slice `buf[p.1 .. p.1 + p.2]`. -/
def sliceOf (buf : List Nat) (p : Nat × Nat) : List Nat :=
  (buf.drop p.1).take p.2

/-- `detect_gso`: on Linux it calls `setsockopt` (one socket interaction) and
reports whether that succeeded; on every other platform the `#[cfg]` variant
returns `false` with no socket interaction.  The second component counts the
socket interactions performed. -/
def detect_gso (os : OS) (env : Env) (segment_size : Nat) : Bool × Nat :=
  match os with
  | .linux => (env.setsockoptGsoOk segment_size, 1)
  | _ => (false, 0)

/-- `detect_sendmmsg()`:
`cfg!(linux) || cfg!(android) || cfg!(freebsd) || cfg!(netbsd)`.  The same
four-platform set gates the real body of `send_to_sendmmsg`. -/
def detect_sendmmsg (os : OS) : Bool :=
  match os with
  | .linux => true
  | .android => true
  | .freebsd => true
  | .netbsd => true
  | _ => false

/-- `send_to_gso`: on Linux, one `sendmsg` with the GSO control message, its
`Ok` returned as is and its `Err` translated; on any other platform, the
`#[cfg(not(target_os = "linux"))]` variant is `panic!`. -/
def send_to_gso (os : OS) (env : Env) (buf : List Nat) (segment_size : Nat) :
    SendResult × List Op :=
  match os with
  | .linux =>
    match env.sendmsgGso buf segment_size with
    | .ok v => (.ok v, [.sendmsgGso buf segment_size])
    | .error e => (.err (translateNix e), [.sendmsgGso buf segment_size])
  | _ => (.fatal "send_to_gso() should not be called on non-linux platforms",
      [])

/-- The `while left > 0` splitting loop shared (textually) by
`send_to_sendmmsg` (building `iovs`) and by the naive loop of `send_to`:
starting from offset `off` with `left` bytes remaining, it pushes the range
`(off, pkt_len)` with `pkt_len = cmp::min(left, S)` and advances.  `fuel`
bounds the number of iterations; `none` means the loop was still running when
the fuel ran out (with `S = 0` and `left > 0` the loop never exits). -/
def splitLoop (S : Nat) : Nat → Nat → Nat → Option (List (Nat × Nat))
  | 0, _, left => if left = 0 then some [] else none
  | fuel + 1, off, left =>
    if left = 0 then some []
    else
      let pkt := min left S
      match splitLoop S fuel (off + pkt) (left - pkt) with
      | none => none
      | some r => some ((off, pkt) :: r)

/-- `send_to_sendmmsg`: on the four supported platforms it splits the buffer,
builds one message per chunk, and performs a single `sendmmsg`; `Ok(results)`
becomes `Ok(results.iter().sum())` and `Err` is translated.  On unsupported
platforms the `#[cfg(not(any(...)))]` variant is `panic!`.  The splitting
loop is run with fuel `buf.length` (enough iterations whenever it terminates
at all); `none` models its divergence. -/
def send_to_sendmmsg (os : OS) (env : Env) (buf : List Nat)
    (segment_size : Nat) : Option (SendResult × List Op) :=
  match detect_sendmmsg os with
  | true =>
    match splitLoop segment_size buf.length 0 buf.length with
    | none => none
    | some ranges =>
      let msgs := ranges.map (sliceOf buf)
      match env.sendmmsg msgs with
      | .ok results => some (.ok results.sum, [.sendmmsg msgs])
      | .error e => some (.err (translateNix e), [.sendmmsg msgs])
  | false =>
    some (.fatal
      "send_to_sendmmsg() should not be called on non-supported platforms",
      [])

/-- The naive `while left > 0` loop at the end of `send_to`: for each chunk it
calls `socket.send_to(&buf[off..off + pkt_len], target)`, accumulates the
returned count into `written` on `Ok(v)` and returns the error unchanged on
`Err(e)`.  The trace lists the segments passed to `socket.send_to`, in call
order (a failing call is itself an attempt and appears in the trace).  `fuel`
bounds the iterations as in `splitLoop`. -/
def naiveLoop (env : Env) (buf : List Nat) (S : Nat) :
    Nat → Nat → Nat → Nat → Option (SendResult × List Op)
  | 0, _, left, written => if left = 0 then some (.ok written, []) else none
  | fuel + 1, off, left, written =>
    if left = 0 then some (.ok written, [])
    else
      let pkt := min left S
      let seg := (buf.drop off).take pkt
      match env.sendOne seg with
      | .ok v =>
        match naiveLoop env buf S fuel (off + pkt) (left - pkt) (written + v)
          with
        | none => none
        | some (res, tr) => some (res, .sendOne seg :: tr)
      | .error e => some (.err e, [.sendOne seg])

/-- `send_to`, the dispatcher: if `enable_gso`, both arms of the inner `match`
return, so the GSO result is returned verbatim; else if `enable_sendmmsg`, the
sendmmsg result is returned verbatim; else the naive loop runs with
`off = 0`, `left = buf.len()`, `written = 0`. -/
def send_to (os : OS) (env : Env) (buf : List Nat) (segment_size : Nat)
    (enable_gso : Bool) (enable_sendmmsg : Bool) :
    Option (SendResult × List Op) :=
  if enable_gso then some (send_to_gso os env buf segment_size)
  else if enable_sendmmsg then send_to_sendmmsg os env buf segment_size
  else naiveLoop env buf segment_size buf.length 0 buf.length 0

/-- Byte count the kernel reported as accepted for one traced operation under
environment `env` (0 for an operation that errored). -/
def opAccepted (env : Env) : Op → Nat
  | .sendmsgGso buf segSize =>
    match env.sendmsgGso buf segSize with
    | .ok v => v
    | .error _ => 0
  | .sendmmsg msgs =>
    match env.sendmmsg msgs with
    | .ok results => results.sum
    | .error _ => 0
  | .sendOne seg =>
    match env.sendOne seg with
    | .ok v => v
    | .error _ => 0

/-- `contigB base r` holds when the ranges in `r` tile memory contiguously
starting at `base`: each range starts where the previous one ended. -/
def contigB : Nat → List (Nat × Nat) → Bool
  | _, [] => true
  | base, p :: r => p.1 == base && contigB (p.1 + p.2) r

/-! ### Basic lemmas about the splitting loop -/

lemma splitLoop_left_zero (S fuel off : Nat) :
    splitLoop S fuel off 0 = some [] := by
  cases fuel <;> simp [splitLoop]

lemma splitLoop_zero_fuel (S off left : Nat) (h : left ≠ 0) :
    splitLoop S 0 off left = none := by
  simp [splitLoop, h]

lemma splitLoop_succ (S fuel off left : Nat) (h : left ≠ 0) :
    splitLoop S (fuel + 1) off left =
      match splitLoop S fuel (off + min left S) (left - min left S) with
      | none => none
      | some r => some ((off, min left S) :: r) := by
  simp [splitLoop, h]

lemma splitLoop_some_inv (S fuel off left : Nat)
    (r : List (Nat × Nat)) (h : splitLoop S fuel off left = some r) :
    (left = 0 ∧ r = []) ∨
      (left ≠ 0 ∧ ∃ fuel' r', fuel = fuel' + 1 ∧
        r = (off, min left S) :: r' ∧
        splitLoop S fuel' (off + min left S) (left - min left S) = some r') :=
  by
  by_cases hl : left = 0
  · subst hl
    rw [splitLoop_left_zero] at h
    exact Or.inl ⟨rfl, by simpa using h.symm⟩
  · right
    refine ⟨hl, ?_⟩
    cases fuel with
    | zero => rw [splitLoop_zero_fuel S off left hl] at h; exact absurd h (by simp)
    | succ fuel' =>
      rw [splitLoop_succ S fuel' off left hl] at h
      cases hr : splitLoop S fuel' (off + min left S) (left - min left S) with
      | none => rw [hr] at h; exact absurd h (by simp)
      | some r' =>
        rw [hr] at h
        simp only [Option.some.injEq] at h
        exact ⟨fuel', r', rfl, h.symm, hr⟩

/-- With a positive segment size, fuel `left` is enough: the loop terminates
and produces a full partition of `[off, off + left)` into contiguous ranges,
each of positive length at most `S`, all but the last of length exactly `S`,
with lengths summing to `left`. -/
lemma splitLoop_sound (S : Nat) (hS : 0 < S) :
    ∀ fuel off left, left ≤ fuel →
      ∃ r, splitLoop S fuel off left = some r ∧
        contigB off r = true ∧
        (r.map Prod.snd).sum = left ∧
        (∀ p ∈ r, 0 < p.2 ∧ p.2 ≤ S) ∧
        (∀ p ∈ r.dropLast, p.2 = S) ∧
        (left = 0 → r = []) := by
  intro fuel
  induction fuel with
  | zero =>
    intro off left hle
    have hl : left = 0 := Nat.le_zero.mp hle
    subst hl
    exact ⟨[], splitLoop_left_zero S 0 off, by simp [contigB]⟩
  | succ fuel ih =>
    intro off left hle
    by_cases hl : left = 0
    · subst hl
      exact ⟨[], splitLoop_left_zero S (fuel + 1) off, by simp [contigB]⟩
    · have hlp : 0 < left := Nat.pos_of_ne_zero hl
      have hpkt : 0 < min left S := lt_min hlp hS
      have hrec : left - min left S ≤ fuel := by
        have : min left S ≤ left := Nat.min_le_left _ _
        omega
      obtain ⟨r', hr', hc', hs', hb', hd', hz'⟩ :=
        ih (off + min left S) (left - min left S) hrec
      refine ⟨(off, min left S) :: r', ?_, ?_, ?_, ?_, ?_, ?_⟩
      · rw [splitLoop_succ S fuel off left hl, hr']
      · simp [contigB, hc']
      · have : min left S ≤ left := Nat.min_le_left _ _
        simp only [List.map_cons, List.sum_cons]
        omega
      · intro p hp
        rcases List.mem_cons.mp hp with h | h
        · subst h; exact ⟨hpkt, Nat.min_le_right _ _⟩
        · exact hb' p h
      · intro p hp
        by_cases hr0 : r' = []
        · subst hr0; simp at hp
        · rw [List.dropLast_cons_of_ne_nil hr0] at hp
          rcases List.mem_cons.mp hp with h | h
          · subst h
            show min left S = S
            rcases Nat.le_total S left with hls | hls
            · exact Nat.min_eq_right hls
            · exfalso
              apply hr0
              apply hz'
              have hm : min left S = left := Nat.min_eq_left hls
              omega
          · exact hd' p h
      · intro h; omega
/-! ### Basic lemmas about the naive loop -/

lemma naiveLoop_left_zero (env : Env) (buf : List Nat)
    (S fuel off written : Nat) :
    naiveLoop env buf S fuel off 0 written = some (.ok written, []) := by
  cases fuel <;> simp [naiveLoop]

lemma naiveLoop_succ_ok (env : Env) (buf : List Nat)
    (S fuel off left written v : Nat) (h : left ≠ 0)
    (hv : env.sendOne ((buf.drop off).take (min left S)) = Except.ok v) :
    naiveLoop env buf S (fuel + 1) off left written =
      match naiveLoop env buf S fuel (off + min left S) (left - min left S)
          (written + v) with
      | none => none
      | some (res, tr) =>
        some (res, .sendOne ((buf.drop off).take (min left S)) :: tr) := by
  simp [naiveLoop, h, hv]

lemma naiveLoop_succ_err (env : Env) (buf : List Nat)
    (S fuel off left written : Nat) (e : IoErr) (h : left ≠ 0)
    (hv : env.sendOne ((buf.drop off).take (min left S)) = Except.error e) :
    naiveLoop env buf S (fuel + 1) off left written =
      some (.err e, [.sendOne ((buf.drop off).take (min left S))]) := by
  simp [naiveLoop, h, hv]

/-- When every `socket.send_to` accepts its whole segment, the naive loop
returns `Ok` of the remaining byte count added to the running total, and its
trace is exactly one send per range of the splitting loop, in order. -/
lemma naive_full (env : Env) (buf : List Nat) (S : Nat)
    (hacc : ∀ s, env.sendOne s = Except.ok s.length) :
    ∀ fuel off left written r, off + left = buf.length →
      splitLoop S fuel off left = some r →
      naiveLoop env buf S fuel off left written =
        some (.ok (written + left),
          r.map (fun p => Op.sendOne (sliceOf buf p))) := by
  intro fuel
  induction fuel with
  | zero =>
    intro off left written r hlen hr
    rcases splitLoop_some_inv _ _ _ _ _ hr with ⟨hl, hrr⟩ |
      ⟨hl, fuel₂, r₂, hfe, hrr, hr₂⟩
    · subst hl; subst hrr; simp [naiveLoop_left_zero]
    · exact absurd hfe (by simp)
  | succ fuel ih =>
    intro off left written r hlen hr
    rcases splitLoop_some_inv _ _ _ _ _ hr with ⟨hl, hrr⟩ |
      ⟨hl, fuel₂, r₂, hfe, hrr, hr₂⟩
    · subst hl; subst hrr; simp [naiveLoop_left_zero]
    · have hfe₂ : fuel₂ = fuel := by omega
      rw [hfe₂] at hr₂
      subst hrr
      have hpkt_le : min left S ≤ left := Nat.min_le_left _ _
      have hseg : ((buf.drop off).take (min left S)).length = min left S := by
        rw [List.length_take, List.length_drop]; omega
      have hvv : env.sendOne ((buf.drop off).take (min left S)) =
          Except.ok (min left S) := by
        rw [hacc, hseg]
      rw [naiveLoop_succ_ok env buf S fuel off left written (min left S) hl
        hvv,
        ih (off + min left S) (left - min left S) (written + min left S) r₂
          (by omega) hr₂]
      have harith : written + min left S + (left - min left S) =
          written + left := by omega
      rw [harith]
      rfl

/-- If the first `k` sends succeed and the send of segment `k` fails with
error `e`, the naive loop returns exactly `Err e` and its trace contains
exactly the first `k + 1` segments: no attempt is made past the failure. -/
lemma naive_err (env : Env) (buf : List Nat) (S : Nat) :
    ∀ fuel off left written r k e,
      splitLoop S fuel off left = some r →
      k < r.length →
      (∀ i, i < k →
        ∃ v, env.sendOne (sliceOf buf (r.getD i (0, 0))) = Except.ok v) →
      env.sendOne (sliceOf buf (r.getD k (0, 0))) = Except.error e →
      naiveLoop env buf S fuel off left written =
        some (.err e,
          (r.take (k + 1)).map (fun p => Op.sendOne (sliceOf buf p))) := by
  intro fuel
  induction fuel with
  | zero =>
    intro off left written r k e hr hk _ _
    rcases splitLoop_some_inv _ _ _ _ _ hr with ⟨hl, hrr⟩ |
      ⟨hl, fuel₂, r₂, hfe, hrr, hr₂⟩
    · subst hrr; simp at hk
    · exact absurd hfe (by simp)
  | succ fuel ih =>
    intro off left written r k e hr hk hok herr
    rcases splitLoop_some_inv _ _ _ _ _ hr with ⟨hl, hrr⟩ |
      ⟨hl, fuel₂, r₂, hfe, hrr, hr₂⟩
    · subst hrr; simp at hk
    · have hfe₂ : fuel₂ = fuel := by omega
      rw [hfe₂] at hr₂
      subst hrr
      cases k with
      | zero =>
        have herr₂ : env.sendOne ((buf.drop off).take (min left S)) =
            Except.error e := by
          simpa [List.getD_cons_zero, sliceOf] using herr
        rw [naiveLoop_succ_err env buf S fuel off left written e hl herr₂]
        rfl
      | succ k =>
        obtain ⟨v, hv⟩ := hok 0 (Nat.succ_pos k)
        have hv₂ : env.sendOne ((buf.drop off).take (min left S)) =
            Except.ok v := by
          simpa [List.getD_cons_zero, sliceOf] using hv
        have hk₂ : k < r₂.length := by simpa using hk
        have hok₂ : ∀ i, i < k →
            ∃ w, env.sendOne (sliceOf buf (r₂.getD i (0, 0))) = Except.ok w :=
          by
          intro i hi
          have := hok (i + 1) (by omega)
          simpa [List.getD_cons_succ] using this
        have herr₂ :
            env.sendOne (sliceOf buf (r₂.getD k (0, 0))) = Except.error e := by
          simpa [List.getD_cons_succ] using herr
        rw [naiveLoop_succ_ok env buf S fuel off left written v hl hv₂,
          ih (off + min left S) (left - min left S) (written + v) r₂ k e
            hr₂ hk₂ hok₂ herr₂]
        rfl

/-- Whenever the naive loop returns `Ok n`, the count `n` is the running
total plus the kernel-reported accepted byte count of every traced send. -/
lemma naive_ok_sum (env : Env) (buf : List Nat) (S : Nat) :
    ∀ fuel off left written n tr,
      naiveLoop env buf S fuel off left written = some (.ok n, tr) →
      n = written + (tr.map (opAccepted env)).sum := by
  intro fuel
  induction fuel with
  | zero =>
    intro off left written n tr h
    by_cases hl : left = 0
    · subst hl
      rw [naiveLoop_left_zero] at h
      simp only [Option.some.injEq, Prod.mk.injEq, SendResult.ok.injEq] at h
      obtain ⟨h1, h2⟩ := h
      subst h2
      simp [h1.symm]
    · simp [naiveLoop, hl] at h
  | succ fuel ih =>
    intro off left written n tr h
    by_cases hl : left = 0
    · subst hl
      rw [naiveLoop_left_zero] at h
      simp only [Option.some.injEq, Prod.mk.injEq, SendResult.ok.injEq] at h
      obtain ⟨h1, h2⟩ := h
      subst h2
      simp [h1.symm]
    · cases hv : env.sendOne ((buf.drop off).take (min left S)) with
      | ok v =>
        rw [naiveLoop_succ_ok env buf S fuel off left written v hl hv] at h
        cases hrec : naiveLoop env buf S fuel (off + min left S)
            (left - min left S) (written + v) with
        | none => rw [hrec] at h; simp at h
        | some rt =>
          obtain ⟨res, tr₂⟩ := rt
          rw [hrec] at h
          simp only [Option.some.injEq, Prod.mk.injEq] at h
          obtain ⟨h1, h2⟩ := h
          subst h1
          subst h2
          have hsum := ih (off + min left S) (left - min left S)
            (written + v) n tr₂ hrec
          have hop : opAccepted env
              (Op.sendOne ((buf.drop off).take (min left S))) = v := by
            simp [opAccepted, hv]
          simp only [List.map_cons, List.sum_cons, hop]
          omega
      | error e =>
        rw [naiveLoop_succ_err env buf S fuel off left written e hl hv] at h
        simp only [Option.some.injEq, Prod.mk.injEq] at h
        exact absurd h.1 (by simp)

/-- With a positive segment size the naive loop always terminates within
`left` iterations, for every environment. -/
lemma naiveLoop_total (env : Env) (buf : List Nat) (S : Nat) (hS : 0 < S) :
    ∀ fuel off left written, left ≤ fuel →
      naiveLoop env buf S fuel off left written ≠ none := by
  intro fuel
  induction fuel with
  | zero =>
    intro off left written hle
    have hl : left = 0 := Nat.le_zero.mp hle
    subst hl
    rw [naiveLoop_left_zero]
    simp
  | succ fuel ih =>
    intro off left written hle
    by_cases hl : left = 0
    · subst hl; rw [naiveLoop_left_zero]; simp
    · cases hv : env.sendOne ((buf.drop off).take (min left S)) with
      | ok v =>
        rw [naiveLoop_succ_ok env buf S fuel off left written v hl hv]
        have hpkt : 0 < min left S := lt_min (Nat.pos_of_ne_zero hl) hS
        have hrec := ih (off + min left S) (left - min left S) (written + v)
          (by omega)
        cases hrecv : naiveLoop env buf S fuel (off + min left S)
            (left - min left S) (written + v) with
        | none => exact absurd hrecv hrec
        | some rt => obtain ⟨res, tr⟩ := rt; simp
      | error e =>
        rw [naiveLoop_succ_err env buf S fuel off left written e hl hv]
        simp

/-- With `segment_size = 0` and bytes remaining, if sending the (empty)
chunk keeps succeeding the naive loop never exits: every fuel bound is
exhausted. -/
lemma naiveLoop_div (env : Env) (buf : List Nat) (off left : Nat)
    (hl : left ≠ 0) (v : Nat) (hok : env.sendOne [] = Except.ok v) :
    ∀ fuel written, naiveLoop env buf 0 fuel off left written = none := by
  intro fuel
  induction fuel with
  | zero => intro written; simp [naiveLoop, hl]
  | succ fuel ih =>
    intro written
    have hv : env.sendOne ((buf.drop off).take (min left 0)) =
        Except.ok v := by simpa using hok
    rw [naiveLoop_succ_ok env buf 0 fuel off left written v hl hv]
    have hnone : naiveLoop env buf 0 fuel (off + min left 0)
        (left - min left 0) (written + v) = none := by
      simpa using ih (written + v)
    rw [hnone]

/-- With `segment_size = 0` and bytes remaining, the splitting loop never
exits: every fuel bound is exhausted. -/
lemma splitLoop_div (off left : Nat) (hl : left ≠ 0) :
    ∀ fuel, splitLoop 0 fuel off left = none := by
  intro fuel
  induction fuel with
  | zero => simp [splitLoop, hl]
  | succ fuel ih =>
    rw [splitLoop_succ 0 fuel off left hl]
    have hnone : splitLoop 0 fuel (off + min left 0) (left - min left 0) =
        none := by simpa using ih
    rw [hnone]


/-- Contiguous ranges starting at `base` stay below `base` plus the sum of
their lengths. -/
lemma contigB_bound : ∀ (r : List (Nat × Nat)) (base : Nat),
    contigB base r = true →
    ∀ p ∈ r, p.1 + p.2 ≤ base + (r.map Prod.snd).sum := by
  intro r
  induction r with
  | nil => intro base _ p hp; simp at hp
  | cons q r ih =>
    intro base hc p hp
    simp only [contigB, Bool.and_eq_true, beq_iff_eq] at hc
    obtain ⟨hq, hc'⟩ := hc
    rcases List.mem_cons.mp hp with h | h
    · subst h
      simp only [List.map_cons, List.sum_cons]
      omega
    · have := ih (q.1 + q.2) hc' p h
      simp only [List.map_cons, List.sum_cons]
      omega

lemma sliceOf_length (buf : List Nat) (p : Nat × Nat)
    (h : p.1 + p.2 ≤ buf.length) :
    (sliceOf buf p).length = p.2 := by
  simp only [sliceOf, List.length_take, List.length_drop]
  omega

lemma slices_length_sum (buf : List Nat) :
    ∀ r : List (Nat × Nat), (∀ p ∈ r, p.1 + p.2 ≤ buf.length) →
      ((r.map (sliceOf buf)).map List.length).sum = (r.map Prod.snd).sum := by
  intro r
  induction r with
  | nil => intro _; simp
  | cons q r ih =>
    intro h
    simp only [List.map_cons, List.sum_cons]
    rw [sliceOf_length buf q (h q (List.mem_cons_self q r)),
      ih (fun p hp => h p (List.mem_cons_of_mem q hp))]

/-- Every traced operation of the GSO sender is an offload operation. -/
lemma send_to_gso_ops (os : OS) (env : Env) (buf : List Nat) (S : Nat) :
    ∀ op ∈ (send_to_gso os env buf S).2, op.strat = .offload := by
  intro op hop
  cases os <;>
    cases hv : env.sendmsgGso buf S <;>
      simp [send_to_gso, hv] at hop <;> simp [hop, Op.strat]

/-- Every traced operation of the sendmmsg sender is a batch operation. -/
lemma send_to_sendmmsg_ops (os : OS) (env : Env) (buf : List Nat) (S : Nat) :
    ∀ rt ∈ send_to_sendmmsg os env buf S, ∀ op ∈ rt.2, op.strat = .batch := by
  intro rt hrt op hop
  rw [Option.mem_def] at hrt
  cases hos : detect_sendmmsg os with
  | false =>
    simp [send_to_sendmmsg, hos] at hrt
    subst hrt
    simp at hop
  | true =>
    cases hsp : splitLoop S buf.length 0 buf.length with
    | none => simp [send_to_sendmmsg, hos, hsp] at hrt
    | some ranges =>
      cases hm : env.sendmmsg (ranges.map (sliceOf buf)) with
      | ok results =>
        simp [send_to_sendmmsg, hos, hsp, hm] at hrt
        subst hrt
        simp at hop
        simp [hop, Op.strat]
      | error e =>
        simp [send_to_sendmmsg, hos, hsp, hm] at hrt
        subst hrt
        simp at hop
        simp [hop, Op.strat]

/-- Every traced operation of the naive loop is a plain per-segment send. -/
lemma naiveLoop_ops (env : Env) (buf : List Nat) (S : Nat) :
    ∀ fuel off left written rt,
      naiveLoop env buf S fuel off left written = some rt →
      ∀ op ∈ rt.2, op.strat = .naive := by
  intro fuel
  induction fuel with
  | zero =>
    intro off left written rt h op hop
    by_cases hl : left = 0
    · subst hl
      rw [naiveLoop_left_zero] at h
      simp only [Option.some.injEq] at h
      subst h
      simp at hop
    · simp [naiveLoop, hl] at h
  | succ fuel ih =>
    intro off left written rt h op hop
    by_cases hl : left = 0
    · subst hl
      rw [naiveLoop_left_zero] at h
      simp only [Option.some.injEq] at h
      subst h
      simp at hop
    · cases hv : env.sendOne ((buf.drop off).take (min left S)) with
      | ok v =>
        rw [naiveLoop_succ_ok env buf S fuel off left written v hl hv] at h
        cases hrec : naiveLoop env buf S fuel (off + min left S)
            (left - min left S) (written + v) with
        | none => rw [hrec] at h; simp at h
        | some rt₂ =>
          obtain ⟨res, tr₂⟩ := rt₂
          rw [hrec] at h
          simp only [Option.some.injEq] at h
          subst h
          simp only [List.mem_cons] at hop
          rcases hop with hop | hop
          · simp [hop, Op.strat]
          · exact ih (off + min left S) (left - min left S) (written + v)
              (res, tr₂) hrec op hop
      | error e =>
        rw [naiveLoop_succ_err env buf S fuel off left written e hl hv] at h
        simp only [Option.some.injEq] at h
        subst h
        simp only [List.mem_cons, List.not_mem_nil, or_false] at hop
        simp [hop, Op.strat]

/-- The dispatcher with both flags false runs the naive loop. -/
lemma send_to_naive_eq (os : OS) (env : Env) (buf : List Nat) (S : Nat) :
    send_to os env buf S false false =
      naiveLoop env buf S buf.length 0 buf.length 0 := rfl

/-! ### Concrete environments used in witnesses and counterexamples -/

/-- Environment in which every primitive fully succeeds: `setsockopt` is
accepted, `sendmsg` accepts the whole buffer, `sendmmsg` confirms every
submitted message in full, and each `socket.send_to` accepts its whole
segment. -/
def envFull : Env where
  setsockoptGsoOk := fun _ => true
  sendmsgGso := fun b _ => Except.ok b.length
  sendmmsg := fun ms => Except.ok (ms.map List.length)
  sendOne := fun s => Except.ok s.length

/-- Environment whose `socket.send_to` always reports 0 accepted bytes and no
error: a short write. -/
def envShort : Env where
  setsockoptGsoOk := fun _ => false
  sendmsgGso := fun _ _ => Except.error NixErr.other
  sendmmsg := fun _ => Except.error NixErr.other
  sendOne := fun _ => Except.ok 0

/-- Environment whose `socket.send_to` accepts every segment in full except
the one-byte segment `[1]`, which fails with errno 111. -/
def envFailOn1 : Env where
  setsockoptGsoOk := fun _ => false
  sendmsgGso := fun _ _ => Except.error NixErr.other
  sendmmsg := fun _ => Except.error NixErr.other
  sendOne := fun s =>
    if s = [1] then Except.error (IoErr.fromErrno 111)
    else Except.ok s.length

/-- Environment whose `socket.send_to` always fails with errno 13. -/
def envSendErr : Env where
  setsockoptGsoOk := fun _ => false
  sendmsgGso := fun _ _ => Except.error NixErr.other
  sendmmsg := fun _ => Except.error NixErr.other
  sendOne := fun _ => Except.error (IoErr.fromErrno 13)

/-- Environment whose `sendmmsg` always confirms exactly two one-byte
messages, whatever was submitted: a strict-prefix confirmation when three or
more messages are submitted. -/
def envTwoMsgs : Env where
  setsockoptGsoOk := fun _ => true
  sendmsgGso := fun b _ => Except.ok b.length
  sendmmsg := fun _ => Except.ok [1, 1]
  sendOne := fun s => Except.ok s.length

/-! ### Claim theorems -/

/-- C1: for every call to `send_to`, exactly one sender strategy executes:
with `enable_gso` set the GSO sender's result (success, error or fatality) is
returned verbatim and only offload operations are performed; else with
`enable_sendmmsg` set the sendmmsg sender's result is returned verbatim and
only batch operations are performed; else the naive loop runs and only plain
per-segment sends are performed.  No error causes another strategy to be
attempted in the same call. -/
theorem C1_dispatcher_exactly_one (os : OS) (env : Env) (buf : List Nat)
    (S : Nat) (b : Bool) :
    (send_to os env buf S true b = some (send_to_gso os env buf S) ∧
      ∀ op ∈ (send_to_gso os env buf S).2, op.strat = .offload) ∧
    (send_to os env buf S false true = send_to_sendmmsg os env buf S ∧
      ∀ rt ∈ send_to_sendmmsg os env buf S, ∀ op ∈ rt.2,
        op.strat = .batch) ∧
    (send_to os env buf S false false =
        naiveLoop env buf S buf.length 0 buf.length 0 ∧
      ∀ rt ∈ naiveLoop env buf S buf.length 0 buf.length 0, ∀ op ∈ rt.2,
        op.strat = .naive) := by
  refine ⟨⟨rfl, send_to_gso_ops os env buf S⟩,
    ⟨rfl, send_to_sendmmsg_ops os env buf S⟩, ⟨rfl, ?_⟩⟩
  intro rt hrt op hop
  rw [Option.mem_def] at hrt
  exact naiveLoop_ops env buf S buf.length 0 buf.length 0 rt hrt op hop

theorem C1_dispatcher_exactly_one_witness :
    send_to .linux envFull [0] 7 true false =
      some (send_to_gso .linux envFull [0] 7) :=
  ((C1_dispatcher_exactly_one .linux envFull [0] 7 false).1).1

/-- C7: calling the GSO sender on a non-Linux platform, or the sendmmsg
sender on a platform outside its four supported targets, hits the `panic!`
variant: the result is the distinct `SendResult.fatal`, which is not a value
of the ordinary recoverable error channel (`.err`) nor a success (`.ok`). -/
theorem C7_unsupported_fatal (os : OS) (env : Env) (buf : List Nat)
    (S : Nat) :
    (os ≠ .linux →
      send_to_gso os env buf S =
        (.fatal "send_to_gso() should not be called on non-linux platforms",
          [])) ∧
    (detect_sendmmsg os = false →
      send_to_sendmmsg os env buf S =
        some (.fatal
          "send_to_sendmmsg() should not be called on non-supported platforms",
          [])) ∧
    (∀ msg e n, SendResult.fatal msg ≠ .err e ∧ SendResult.fatal msg ≠ .ok n)
    := by
  refine ⟨?_, ?_, ?_⟩
  · intro h
    cases os with
    | linux => exact absurd rfl h
    | android => rfl
    | freebsd => rfl
    | netbsd => rfl
    | macos => rfl
    | windows => rfl
  · intro h
    simp [send_to_sendmmsg, h]
  · intro msg e n
    exact ⟨by simp, by simp⟩

theorem C7_unsupported_fatal_witness :
    send_to_gso .macos envFull [0] 3 =
      (.fatal "send_to_gso() should not be called on non-linux platforms",
        []) :=
  (C7_unsupported_fatal .macos envFull [0] 3).1 (by decide)

/-- C9: on every platform other than Linux, `detect_gso` returns `false` for
every socket environment and segment size, performing zero socket
interactions (the second component counts them). -/
theorem C9_no_gso_detection (os : OS) (env : Env) (S : Nat)
    (h : os ≠ .linux) :
    detect_gso os env S = (false, 0) := by
  cases os with
  | linux => exact absurd rfl h
  | android => rfl
  | freebsd => rfl
  | netbsd => rfl
  | macos => rfl
  | windows => rfl

theorem C9_no_gso_detection_witness :
    detect_gso .macos envFull 1200 = (false, 0) :=
  C9_no_gso_detection .macos envFull 1200 (by decide)

/-- C2: for every buffer and positive segment size, the splitting loop
terminates (fuel `length` suffices) and yields exactly the ranges
`[0,S), [S,2S), ..., [kS, L)`: contiguous from offset 0 (hence pairwise
non-overlapping), each of positive length at most `S`, all but the last of
length exactly `S`, lengths summing to the buffer length, and empty when the
buffer is empty.  The sendmmsg sender submits exactly the slices of these
ranges, and the naive loop (when every send succeeds) attempts exactly these
slices in order. -/
theorem C2_segment_partition (buf : List Nat) (S : Nat) (hS : 0 < S) :
    ∃ r, splitLoop S buf.length 0 buf.length = some r ∧
      contigB 0 r = true ∧
      (r.map Prod.snd).sum = buf.length ∧
      (∀ p ∈ r, 0 < p.2 ∧ p.2 ≤ S) ∧
      (∀ p ∈ r.dropLast, p.2 = S) ∧
      (buf.length = 0 → r = []) ∧
      (∀ os env, detect_sendmmsg os = true →
        ∀ rt ∈ send_to_sendmmsg os env buf S,
          rt.2 = [.sendmmsg (r.map (sliceOf buf))]) ∧
      (∀ env, (∀ s, env.sendOne s = Except.ok s.length) →
        naiveLoop env buf S buf.length 0 buf.length 0 =
          some (.ok buf.length,
            r.map (fun p => Op.sendOne (sliceOf buf p)))) := by
  obtain ⟨r, hr, hc, hsum, hb, hd, hz⟩ :=
    splitLoop_sound S hS buf.length 0 buf.length le_rfl
  refine ⟨r, hr, hc, hsum, hb, hd, hz, ?_, ?_⟩
  · intro os env hos rt hrt
    rw [Option.mem_def] at hrt
    cases hm : env.sendmmsg (r.map (sliceOf buf)) with
    | ok results =>
      simp [send_to_sendmmsg, hos, hr, hm] at hrt
      subst hrt
      rfl
    | error e =>
      simp [send_to_sendmmsg, hos, hr, hm] at hrt
      subst hrt
      rfl
  · intro env hacc
    have := naive_full env buf S hacc buf.length 0 buf.length 0 r
      (by simp) hr
    simpa using this

theorem C2_segment_partition_witness :
    ∃ r, splitLoop 2 3 0 3 = some r ∧
      contigB 0 r = true ∧
      (r.map Prod.snd).sum = 3 ∧
      (∀ p ∈ r, 0 < p.2 ∧ p.2 ≤ 2) ∧
      (∀ p ∈ r.dropLast, p.2 = 2) ∧
      ((3 : Nat) = 0 → r = []) ∧
      (∀ os env, detect_sendmmsg os = true →
        ∀ rt ∈ send_to_sendmmsg os env [0, 0, 0] 2,
          rt.2 = [.sendmmsg (r.map (sliceOf [0, 0, 0]))]) ∧
      (∀ env, (∀ s, env.sendOne s = Except.ok s.length) →
        naiveLoop env [0, 0, 0] 2 3 0 3 0 =
          some (.ok 3, r.map (fun p => Op.sendOne (sliceOf [0, 0, 0] p)))) :=
  C2_segment_partition [0, 0, 0] 2 (by decide)

/-- C3: if the sends of segments `0..k-1` succeed and the send of segment `k`
fails with error `e`, the naive path of `send_to` returns exactly `Err e` —
a value carrying only the error, no byte count — and its trace contains
exactly the `k + 1` segments attempted, so no segment after `k` is
attempted. -/
theorem C3_naive_stops_on_error (os : OS) (env : Env) (buf : List Nat)
    (S k : Nat) (e : IoErr) (r : List (Nat × Nat))
    (hr : splitLoop S buf.length 0 buf.length = some r)
    (hk : k < r.length)
    (hok : ∀ i, i < k →
      ∃ v, env.sendOne (sliceOf buf (r.getD i (0, 0))) = Except.ok v)
    (herr : env.sendOne (sliceOf buf (r.getD k (0, 0))) = Except.error e) :
    send_to os env buf S false false =
      some (.err e, (r.take (k + 1)).map (fun p => Op.sendOne (sliceOf buf p)))
      ∧
    ((r.take (k + 1)).map (fun p => Op.sendOne (sliceOf buf p))).length =
      k + 1 := by
  constructor
  · show naiveLoop env buf S buf.length 0 buf.length 0 = _
    exact naive_err env buf S buf.length 0 buf.length 0 r k e hr hk hok herr
  · rw [List.length_map, List.length_take]
    omega

theorem C3_naive_stops_on_error_witness :
    send_to .linux envFailOn1 [0, 0, 1] 2 false false =
      some (.err (IoErr.fromErrno 111),
        [.sendOne [0, 0], .sendOne [1]]) := by
  have h := C3_naive_stops_on_error .linux envFailOn1 [0, 0, 1] 2 1
    (IoErr.fromErrno 111) [(0, 2), (2, 1)] (by decide) (by decide)
    (by
      intro i hi
      have hi0 : i = 0 := by omega
      subst hi0
      exact ⟨2, rfl⟩)
    rfl
  exact h.1

/-- C4 counterexample: with a primitive that accepts 0 of the 1 requested
bytes and reports no error (a short write), the naive path performs a second
send and returns success — the code silently continues past a partial
acceptance, so the claim's second conjunct is false on the code. -/
theorem C4_counterexample :
    envShort.sendOne [0] = Except.ok 0 ∧
    send_to .linux envShort [0, 0] 1 false false =
      some (.ok 0, [.sendOne [0], .sendOne [0]]) :=
  ⟨rfl, rfl⟩

/-- C4 (amended): for every successful call, the reported byte count equals
the sum of the kernel-reported accepted byte counts of the traced underlying
operations; and after a per-segment send returns `Ok v` the naive loop
continues to the next segment unconditionally, with no check that `v` covers
the whole segment. -/
theorem C4_accounting :
    (∀ os env buf S g b n tr,
      send_to os env buf S g b = some (.ok n, tr) →
      n = (tr.map (opAccepted env)).sum) ∧
    (∀ env buf S fuel off left written v, left ≠ 0 →
      env.sendOne ((buf.drop off).take (min left S)) = Except.ok v →
      naiveLoop env buf S (fuel + 1) off left written =
        match naiveLoop env buf S fuel (off + min left S) (left - min left S)
            (written + v) with
        | none => none
        | some (res, tr) =>
          some (res, .sendOne ((buf.drop off).take (min left S)) :: tr)) := by
  constructor
  · intro os env buf S g b n tr h
    cases g with
    | true =>
      simp only [send_to, if_true] at h
      rw [Option.some_inj] at h
      cases os
      case linux =>
        cases hm : env.sendmsgGso buf S with
        | ok v =>
          simp [send_to_gso, hm] at h
          rcases h with ⟨rfl, rfl⟩
          simp [opAccepted, hm]
        | error e => simp [send_to_gso, hm] at h
      all_goals simp [send_to_gso] at h
    | false =>
      cases b with
      | true =>
        simp only [send_to, Bool.false_eq_true, if_false, if_true] at h
        cases hos : detect_sendmmsg os with
        | false => simp [send_to_sendmmsg, hos] at h
        | true =>
          cases hsp : splitLoop S buf.length 0 buf.length with
          | none => simp [send_to_sendmmsg, hos, hsp] at h
          | some ranges =>
            cases hm : env.sendmmsg (ranges.map (sliceOf buf)) with
            | ok results =>
              simp [send_to_sendmmsg, hos, hsp, hm] at h
              rcases h with ⟨rfl, rfl⟩
              simp [opAccepted, hm]
            | error e => simp [send_to_sendmmsg, hos, hsp, hm] at h
      | false =>
        simp only [send_to, Bool.false_eq_true, if_false] at h
        have := naive_ok_sum env buf S buf.length 0 buf.length 0 n tr h
        simpa using this
  · intro env buf S fuel off left written v hl hv
    exact naiveLoop_succ_ok env buf S fuel off left written v hl hv

theorem C4_accounting_witness :
    (3 : Nat) =
      ([Op.sendOne [0, 0], Op.sendOne [0]].map (opAccepted envFull)).sum :=
  C4_accounting.1 .linux envFull [0, 0, 0] 2 false false 3
    [Op.sendOne [0, 0], Op.sendOne [0]] rfl

/-- C5 counterexample: with an empty buffer and the offload flag set, the
code still performs one underlying `sendmsg` call (the trace has length 1,
not 0), so "zero underlying transmission operations in all three strategies"
is false on the code. -/
theorem C5_counterexample :
    send_to .linux envFull [] 1200 true false =
      some (.ok 0, [.sendmsgGso [] 1200]) ∧
    [Op.sendmsgGso [] 1200].length = 1 :=
  ⟨rfl, rfl⟩

/-- C5 (amended): for an empty buffer, the naive path returns `Ok 0` after
zero underlying transmissions; the sendmmsg path still issues exactly one
underlying `sendmmsg` call, with an empty message vector, and returns its
translated result (the sum of the reported counts on success); the GSO path
still issues exactly one underlying `sendmsg` call, with the empty buffer,
and returns its translated result verbatim. -/
theorem C5_empty_buffer :
    (∀ os env S, send_to os env [] S false false = some (.ok 0, [])) ∧
    (∀ os env S, detect_sendmmsg os = true →
      (∀ counts, env.sendmmsg [] = Except.ok counts →
        send_to os env [] S false true =
          some (.ok counts.sum, [.sendmmsg []])) ∧
      (∀ e, env.sendmmsg [] = Except.error e →
        send_to os env [] S false true =
          some (.err (translateNix e), [.sendmmsg []]))) ∧
    (∀ env S b, send_to .linux env [] S true b =
        some (send_to_gso .linux env [] S) ∧
      (send_to_gso .linux env [] S).2 = [.sendmsgGso [] S]) := by
  refine ⟨?_, ?_, ?_⟩
  · intro os env S
    rfl
  · intro os env S hos
    constructor
    · intro counts hm
      simp [send_to, send_to_sendmmsg, hos, splitLoop, hm]
    · intro e hm
      simp [send_to, send_to_sendmmsg, hos, splitLoop, hm]
  · intro env S b
    refine ⟨rfl, ?_⟩
    cases hm : env.sendmsgGso [] S <;> simp [send_to_gso, hm]

theorem C5_empty_buffer_witness :
    send_to .linux envFull [] 5 false true = some (.ok 0, [.sendmmsg []]) :=
  (C5_empty_buffer.2.1 .linux envFull 5 rfl).1 [] rfl

/-- C6: when the batched primitive confirms (possibly only some of) the
submitted messages, the sendmmsg sender returns the sum of the
platform-reported per-message byte counts — not the buffer length — and when
the primitive fails outright it returns the translated error, which carries
no byte count. -/
theorem C6_batch_reported_counts (os : OS) (env : Env) (buf : List Nat) (S : Nat)
    (r : List (Nat × Nat)) (hos : detect_sendmmsg os = true)
    (hr : splitLoop S buf.length 0 buf.length = some r) :
    (∀ counts, env.sendmmsg (r.map (sliceOf buf)) = Except.ok counts →
      send_to_sendmmsg os env buf S =
        some (.ok counts.sum, [.sendmmsg (r.map (sliceOf buf))])) ∧
    (∀ e, env.sendmmsg (r.map (sliceOf buf)) = Except.error e →
      send_to_sendmmsg os env buf S =
        some (.err (translateNix e), [.sendmmsg (r.map (sliceOf buf))])) := by
  constructor
  · intro counts hm
    simp [send_to_sendmmsg, hos, hr, hm]
  · intro e hm
    simp [send_to_sendmmsg, hos, hr, hm]

theorem C6_batch_reported_counts_witness :
    send_to_sendmmsg .linux envTwoMsgs [0, 0, 0] 1 =
      some (.ok 2, [.sendmmsg [[0], [0], [0]]]) :=
  (C6_batch_reported_counts .linux envTwoMsgs [0, 0, 0] 1
    [(0, 1), (1, 1), (2, 1)] rfl rfl).1 [1, 1] rfl

/-- C8: with a positive segment size and every per-segment send accepting its
full segment, the naive path reports exactly the buffer length; with the
batched primitive confirming every message in full, the sendmmsg path also
reports exactly the buffer length; and on a 3000-byte buffer with segment
size 1200 and both flags false, exactly 3 sends of lengths 1200, 1200, 600
are issued in that order and 3000 is returned. -/
theorem C8_full_accounting (os : OS) (env : Env) (buf : List Nat) (S : Nat) :
    (0 < S → (∀ s, env.sendOne s = Except.ok s.length) →
      ∃ tr, send_to os env buf S false false =
        some (.ok buf.length, tr)) ∧
    (0 < S → detect_sendmmsg os = true →
      (∀ ms, env.sendmmsg ms = Except.ok (ms.map List.length)) →
      ∃ tr, send_to os env buf S false true =
        some (.ok buf.length, tr)) ∧
    send_to os envFull (List.replicate 3000 0) 1200 false false =
      some (.ok 3000,
        [.sendOne (List.replicate 1200 0), .sendOne (List.replicate 1200 0),
          .sendOne (List.replicate 600 0)]) := by
  refine ⟨?_, ?_, ?_⟩
  · intro hS hacc
    obtain ⟨r, hr, _, _, _, _, _⟩ :=
      splitLoop_sound S hS buf.length 0 buf.length le_rfl
    refine ⟨r.map (fun p => Op.sendOne (sliceOf buf p)), ?_⟩
    show naiveLoop env buf S buf.length 0 buf.length 0 = _
    have := naive_full env buf S hacc buf.length 0 buf.length 0 r (by simp) hr
    simpa using this
  · intro hS hos hbat
    obtain ⟨r, hr, hc, hsum, _, _, _⟩ :=
      splitLoop_sound S hS buf.length 0 buf.length le_rfl
    have hbound : ∀ p ∈ r, p.1 + p.2 ≤ buf.length := by
      intro p hp
      have h2 := contigB_bound r 0 hc p hp
      rw [hsum] at h2
      omega
    have hlen : ((r.map (sliceOf buf)).map List.length).sum = buf.length := by
      rw [slices_length_sum buf r hbound, hsum]
    have hlen2 : (r.map (List.length ∘ sliceOf buf)).sum = buf.length := by
      rw [← List.map_map]
      exact hlen
    refine ⟨[.sendmmsg (r.map (sliceOf buf))], ?_⟩
    have hm := hbat (r.map (sliceOf buf))
    simp [send_to, send_to_sendmmsg, hos, hr, hm, hlen, hlen2]
  · have hlen : (List.replicate 3000 (0 : Nat)).length = 3000 :=
      List.length_replicate 3000 0
    have hacc : ∀ s, envFull.sendOne s = Except.ok s.length := fun _ => rfl
    have hr : splitLoop 1200 3000 0 3000 =
        some [(0, 1200), (1200, 1200), (2400, 600)] := rfl
    have h := naive_full envFull (List.replicate 3000 0) 1200 hacc 3000 0
      3000 0 [(0, 1200), (1200, 1200), (2400, 600)]
      (by rw [List.length_replicate] :
        (0 : Nat) + 3000 = (List.replicate 3000 (0 : Nat)).length)
      hr
    rw [send_to_naive_eq os envFull (List.replicate 3000 0) 1200, hlen, h]
    simp only [sliceOf, List.map_cons, List.map_nil, List.drop_replicate,
      List.take_replicate]
    norm_num

theorem C8_full_accounting_witness :
    ∃ tr, send_to .linux envFull [0] 1 false false = some (.ok 1, tr) :=
  (C8_full_accounting .linux envFull [0] 1).1 (by decide) (fun s => rfl)

/-- C10 counterexample: with `segment_size = 0` and a non-empty buffer, the
naive loop can still terminate — a failing send of the empty chunk makes it
return that error after one iteration — so "the loop does not terminate" is
false on the code for the Naive Sender's loop. -/
theorem C10_counterexample :
    naiveLoop envSendErr [0] 0 1 0 1 0 =
      some (.err (IoErr.fromErrno 13), [.sendOne []]) ∧
    naiveLoop envSendErr [0] 0 1 0 1 0 ≠ none := by
  constructor
  · rfl
  · intro h
    exact absurd h (by decide)

/-- C10 (amended): with `segment_size = 0` and bytes remaining, `left` never
decreases, so the splitting loop of the sendmmsg sender never exits (every
fuel bound is exhausted), and the naive loop never exits as long as sending
the empty chunk keeps succeeding (it can only exit through the error
return); with `segment_size > 0` both loops terminate within `left`
iterations for every buffer and environment. -/
theorem C10_termination (env : Env) (buf : List Nat)
    (S fuel off left written : Nat) :
    (left ≠ 0 → splitLoop 0 fuel off left = none) ∧
    (left ≠ 0 → ∀ v, env.sendOne [] = Except.ok v →
      naiveLoop env buf 0 fuel off left written = none) ∧
    (0 < S → left ≤ fuel →
      splitLoop S fuel off left ≠ none ∧
      naiveLoop env buf S fuel off left written ≠ none) := by
  refine ⟨?_, ?_, ?_⟩
  · intro hl
    exact splitLoop_div off left hl fuel
  · intro hl v hok
    exact naiveLoop_div env buf off left hl v hok fuel written
  · intro hS hle
    constructor
    · obtain ⟨r, hr, _⟩ := splitLoop_sound S hS fuel off left hle
      simp [hr]
    · exact naiveLoop_total env buf S hS fuel off left written hle

theorem C10_termination_witness :
    splitLoop 1 2 0 2 ≠ none ∧ naiveLoop envFull [0, 0] 1 2 0 2 0 ≠ none :=
  (C10_termination envFull [0, 0] 1 2 0 2 0).2.2 (by decide) (by decide)

end Sendto
